import Mathlib

/-!
# imageW: batch conversion of images to webp with bounded concurrency

A shallow embedding of `main.go`.

* Strings of the program are Lean strings; `fmt.Sprintf` with `%s` and `%v`
  verbs is string concatenation, `%d`/`%v` of an `int` is its decimal form.
* The operating system and the libraries are an environment `Env`: the result
  of `os.Stat`, the sequence of callback invocations `filepath.Walk` would make,
  `filepath.Dir`, `runtime.NumCPU` and the non-ASCII part of the Unicode
  lower-case table.  `filepath.Ext` and the ASCII part of `strings.ToLower` are
  transcribed from the Go standard library.
* `establishWebp` is a function from the results of its four external
  operations to the list of effects it performs.
* `main` is a function from the flags and the environment to the list of events
  of the main goroutine and the way the process terminates.
* The goroutines of the batch loop, the channel `sem` and the wait group `wg`
  are a labelled transition system (`step`), one label per scheduling choice.
-/

namespace ImageW

/-! ## Data model -/

/-- The `File` struct of the program (lines 16-19). -/
structure File where
  Root : String
  Name : String
deriving DecidableEq, Repr

/-- One invocation of the callback by `filepath.Walk`: the path, the name and
directory bit of the `os.FileInfo`, and the error handed to the callback. -/
structure WalkEntry where
  path : String
  name : String
  isDir : Bool
  err : Option String
deriving DecidableEq, Repr

/-- The environment of one run: operating system and library results. -/
structure Env where
  /-- Result of `runtime.NumCPU()`. -/
  NumCPU : Int
  /-- Result of `os.Stat(path)`: an error, or the `IsDir()` bit. -/
  stat : String → Except String Bool
  /-- The callback invocations `filepath.Walk(root, fn)` makes while `fn` returns nil. -/
  walk : String → List WalkEntry
  /-- The function `filepath.Dir`. -/
  Dir : String → String
  /-- The lower-case mapping of `unicode.ToLower` on runes above `MaxASCII`. -/
  lowerTable : Char → Char

/-- The command line flags `-i`, `-q`, `-t`, `-help` after `flag.Parse()`. -/
structure Flags where
  input : String
  quality : Int
  thread : Int
  help : Bool

/-! ## Library functions -/

/-- The loop of `filepath.Ext`: scan the bytes from the end, stop at a path
separator, return the suffix that starts at the first dot met. -/
def extScan : List Char → List Char → List Char
  | [], _ => []
  | c :: rest, acc =>
    if c = '/' then [] else if c = '.' then c :: acc else extScan rest (c :: acc)

/-- The function `filepath.Ext`. -/
def Ext (path : String) : String := ⟨extScan path.data.reverse []⟩

/-- The function `unicode.ToLower`: ASCII letters are shifted, other ASCII runes are
unchanged, and runes above `MaxASCII` go through the case table. -/
def unicodeToLower (table : Char → Char) (r : Char) : Char :=
  if r.toNat ≤ 127 then
    (if 'A'.toNat ≤ r.toNat ∧ r.toNat ≤ 'Z'.toNat then Char.ofNat (r.toNat + 32) else r)
  else table r

/-- The function `strings.ToLower`: every rune is mapped by `unicode.ToLower`. -/
def ToLower (table : Char → Char) (s : String) : String :=
  ⟨s.data.map (unicodeToLower table)⟩

/-! ## Discovery: `getDirAllImageFiles` (lines 21-45) -/

/-- The map `supportedExtensions` (lines 24-26), as its lookup function. -/
def supportedExtensions (ext : String) : Bool :=
  ext = ".jpg" || ext = ".jpeg" || ext = ".png" || ext = ".gif" || ext = ".bmp"

/-- The callback of lines 28-42: the new value of `fileList` and the error returned. -/
def walkFn (env : Env) (fileList : List File) (e : WalkEntry) : List File × Option String :=
  match e.err with
  | some err => (fileList, some err)
  | none =>
    if !e.isDir then
      let ext := ToLower env.lowerTable (Ext e.name)
      if supportedExtensions ext then
        (fileList ++ [File.mk (env.Dir e.path) e.name], none)
      else (fileList, none)
    else (fileList, none)

/-- The function `filepath.Walk`: the callback runs on the entries in order and the
first error it returns ends the walk and is the result. -/
def filepathWalk (fn : List File → WalkEntry → List File × Option String) :
    List WalkEntry → List File → List File × Option String
  | [], acc => (acc, none)
  | e :: rest, acc =>
    match fn acc e with
    | (acc', some err) => (acc', some err)
    | (acc', none) => filepathWalk fn rest acc'

/-- The function `getDirAllImageFiles`: returns `fileList, err`. -/
def getDirAllImageFiles (env : Env) (directory : String) : List File × Option String :=
  filepathWalk (walkFn env) (env.walk directory) []

/-- The function `isDirectory` (lines 56-62). -/
def isDirectory (env : Env) (path : String) : Bool × Option String :=
  match env.stat path with
  | .error err => (false, some err)
  | .ok isDir => (isDir, none)

/-! ### The extension as the specification words it -/

/-- The suffix of a name that starts at its last dot; empty when it has no dot. -/
def lastDotSuffix : List Char → List Char
  | [] => []
  | c :: cs =>
    if '.' ∈ cs then lastDotSuffix cs else if c = '.' then c :: cs else []

/-- The recognised set of the specification: the suffix from the last dot, lower-cased,
is one of `.jpg`, `.jpeg`, `.png`, `.gif`, `.bmp`. -/
def recognised (table : Char → Char) (name : String) : Bool :=
  decide (ToLower table ⟨lastDotSuffix name.data⟩ ∈ [".jpg", ".jpeg", ".png", ".gif", ".bmp"])

/-- The entries the specification keeps: not a directory, recognised extension. -/
def isImageEntry (env : Env) (e : WalkEntry) : Bool :=
  !e.isDir && recognised env.lowerTable e.name

/-! ## Transformation: `establishWebp` (lines 65-97) -/

/-- The errors (nil is `none`) of the four external operations of one call. -/
structure Outcomes where
  openErr : Option String
  decodeErr : Option String
  createErr : Option String
  encodeErr : Option String
deriving DecidableEq, Repr

/-- The observable actions of `establishWebp` and of the goroutines. -/
inductive Effect where
  | osOpen (path : String)
  | imageDecode
  | osCreate (path : String)
  | webpEncode (quality : Int)
  | closeOutput
  | closeInput
  | stderr (msg : String)
  | stdout (msg : String)
deriving DecidableEq, Repr

/-- The function `establishWebp`: the effects of one call, in order.  The deferred
`Close` calls run at the return, last registered first. -/
def establishWebp (r : Outcomes) (input output : String) (quality : Int) : List Effect :=
  match r.openErr with
  | some err =>
    [.osOpen input, .stderr ("Error opening file: " ++ err ++ "\n")]
  | none =>
    match r.decodeErr with
    | some err =>
      [.osOpen input, .imageDecode, .stderr ("Error decoding image: " ++ err ++ "\n"),
        .closeInput]
    | none =>
      match r.createErr with
      | some err =>
        [.osOpen input, .imageDecode, .osCreate output,
          .stderr ("Error creating output file: " ++ err ++ "\n"), .closeInput]
      | none =>
        match r.encodeErr with
        | some err =>
          [.osOpen input, .imageDecode, .osCreate output, .webpEncode quality,
            .stderr ("Error encoding to webp: " ++ err ++ "\n"), .closeOutput, .closeInput]
        | none =>
          [.osOpen input, .imageDecode, .osCreate output, .webpEncode quality,
            .stdout ("Image successfully converted to webp and saved as " ++ output
              ++ "; quality " ++ toString quality ++ "\n"),
            .closeOutput, .closeInput]

/-- The four external operations of `establishWebp`, in program order. -/
inductive Step where
  | openSource
  | decode
  | createDestination
  | encode
deriving DecidableEq, Repr

/-- The operation an effect is an attempt of, if any. -/
def Effect.step? : Effect → Option Step
  | .osOpen _ => some .openSource
  | .imageDecode => some .decode
  | .osCreate _ => some .createDestination
  | .webpEncode _ => some .encode
  | _ => none

/-- The operations attempted in a list of effects, in order. -/
def stepsOf (t : List Effect) : List Step := t.filterMap Effect.step?

/-- The messages written to standard error, in order. -/
def stderrOf (t : List Effect) : List String :=
  t.filterMap (fun e => match e with | .stderr m => some m | _ => none)

/-- The messages written to standard output, in order. -/
def stdoutOf (t : List Effect) : List String :=
  t.filterMap (fun e => match e with | .stdout m => some m | _ => none)

/-- The first operation that fails and its error, in the order open, decode, create,
encode; `none` when all four succeed. -/
def firstFailure (r : Outcomes) : Option (Step × String) :=
  match r.openErr, r.decodeErr, r.createErr, r.encodeErr with
  | some e, _, _, _ => some (.openSource, e)
  | none, some e, _, _ => some (.decode, e)
  | none, none, some e, _ => some (.createDestination, e)
  | none, none, none, some e => some (.encode, e)
  | none, none, none, none => none

/-- The operations from the first up to and including the given one. -/
def Step.upTo : Step → List Step
  | .openSource => [.openSource]
  | .decode => [.openSource, .decode]
  | .createDestination => [.openSource, .decode, .createDestination]
  | .encode => [.openSource, .decode, .createDestination, .encode]

/-- The text that starts the error message of each operation. -/
def Step.label : Step → String
  | .openSource => "Error opening file: "
  | .decode => "Error decoding image: "
  | .createDestination => "Error creating output file: "
  | .encode => "Error encoding to webp: "

/-- The completion notice of line 95. -/
def completionNotice (output : String) (quality : Int) : String :=
  "Image successfully converted to webp and saved as " ++ output
    ++ "; quality " ++ toString quality ++ "\n"

/-! ## The main goroutine: `main` (lines 99-156) -/

/-- The arguments of the goroutine of lines 139-149. -/
structure TaskArgs where
  index : Nat
  filePath : String
  output : String
deriving DecidableEq, Repr

/-- The actions of the main goroutine. `println` carries the operands of
`fmt.Println` joined by blanks; `go` is the launch of one goroutine; `call` is a
synchronous call of `establishWebp`. -/
inductive Event where
  | makeChan (capacity : Int)
  | println (line : String)
  | printDefaults
  | stat (path : String)
  | walk (directory : String)
  | wgAdd
  | go (args : TaskArgs)
  | call (input output : String) (quality : Int)
  | wgWait
deriving DecidableEq, Repr

/-- How the process ends: `main` returns, `os.Exit` is called, or a panic is not
recovered. -/
inductive Termination where
  | returned
  | exit (code : Nat)
  | panicked
deriving DecidableEq, Repr

/-- The exit status of the process: 0 when `main` returns, the argument of
`os.Exit`, and 2 after a panic. -/
def Termination.exitStatus : Termination → Nat
  | .returned => 0
  | .exit code => code
  | .panicked => 2

/-- The variable `numCPU` of lines 109-112, the capacity given to `make`. -/
def numCPU (thread : Int) (cpus : Int) : Int :=
  if thread = 0 then cpus else thread

/-- The loop of lines 135-150 as seen from the main goroutine: for each file, in
order, `wg.Add(1)` and the launch of a goroutine with the two formatted paths. -/
def rangeLoop : Nat → List File → List Event
  | _, [] => []
  | index, file :: rest =>
    .wgAdd
      :: .go (TaskArgs.mk index (file.Root ++ "/" ++ file.Name)
            (file.Root ++ "/" ++ file.Name ++ ".webp"))
      :: rangeLoop (index + 1) rest

/-- The function `printHelp` (lines 48-53). -/
def printHelp : List Event :=
  [.println "使用方法:", .println "  myapp [选项]", .println "\n选项:", .printDefaults]

/-- The function `main`: the events of the main goroutine and how the process ends.
`make` panics on a negative capacity; `-help` exits with status 0 after the channel
is made; every other path returns from `main`. -/
def main (flags : Flags) (env : Env) : List Event × Termination :=
  let n := numCPU flags.thread env.NumCPU
  if n < 0 then ([.makeChan n], .panicked)
  else if flags.help then
    (.makeChan n :: printHelp, .exit 0)
  else
    match isDirectory env flags.input with
    | (_, some err) =>
      ([.makeChan n, .stat flags.input, .println ("错误: " ++ err)], .returned)
    | (true, none) =>
      match getDirAllImageFiles env flags.input with
      | (_, some err) =>
        ([.makeChan n, .stat flags.input, .walk flags.input,
          .println ("读取目录错误: " ++ err)], .returned)
      | (files, none) =>
        ([.makeChan n, .stat flags.input, .walk flags.input] ++ rangeLoop 0 files
          ++ [.wgWait], .returned)
    | (false, none) =>
      ([.makeChan n, .stat flags.input,
        .call flags.input (flags.input ++ ".webp") flags.quality, .wgWait], .returned)

/-- The goroutines launched, in order. -/
def launchedOf (t : List Event) : List TaskArgs :=
  t.filterMap (fun e => match e with | .go a => some a | _ => none)

/-- The synchronous calls of `establishWebp`, in order, as (input, output, quality). -/
def callsOf (t : List Event) : List (String × String × Int) :=
  t.filterMap (fun e => match e with | .call i o q => some (i, o, q) | _ => none)

/-- The lines printed by the main goroutine, in order. -/
def printedOf (t : List Event) : List String :=
  t.filterMap (fun e => match e with | .println l => some l | _ => none)

/-- The directories walked, in order. -/
def walkedOf (t : List Event) : List String :=
  t.filterMap (fun e => match e with | .walk d => some d | _ => none)

/-- The capacities of the channels made, in order. -/
def capacitiesOf (t : List Event) : List Int :=
  t.filterMap (fun e => match e with | .makeChan c => some c | _ => none)

/-- The source path of a discovered file in batch mode (line 136). -/
def File.source (f : File) : String := f.Root ++ "/" ++ f.Name

/-- The destination path of a discovered file in batch mode (line 137). -/
def File.destination (f : File) : String := f.Root ++ "/" ++ f.Name ++ ".webp"

/-! ## The batch dispatch as a transition system (lines 135-155) -/

/-- The program points of one goroutine of lines 139-149. -/
inductive Phase where
  /-- Launched, `defer wg.Done()` registered, at the send `sem <- struct{}{}`. -/
  | start
  /-- The send succeeded, the deferred receive is registered, at the `Printf`. -/
  | holding
  /-- Inside `establishWebp`. -/
  | transforming
  /-- The call returned; the deferred `<-sem` is next. -/
  | transformed
  /-- The receive is done; the deferred `wg.Done()` is next. -/
  | released
  /-- The goroutine called `wg.Done()` and ended. -/
  | done
deriving DecidableEq, Repr

/-- One goroutine: its arguments, its program point, and counters of the sends on
`sem`, the receives from `sem` and the `wg.Done()` calls it has made. -/
structure Goroutine where
  args : TaskArgs
  phase : Phase
  sends : Nat
  recvs : Nat
  dones : Nat
deriving DecidableEq, Repr

/-- The program points of the main goroutine in the batch branch. -/
inductive MainPc where
  /-- At the head of the loop with `index` files already handled. -/
  | add (index : Nat)
  /-- After `wg.Add(1)` for file `index`, at the `go` statement. -/
  | spawn (index : Nat)
  /-- At `wg.Wait()`. -/
  | wait
  /-- Past `wg.Wait()`. -/
  | returned
deriving DecidableEq, Repr

/-- What is fixed during the dispatch: the capacity of `sem`, the quality and the
arguments of the goroutines, one per discovered file. -/
structure Config where
  limit : Nat
  quality : Int
  items : List TaskArgs

/-- The state of the dispatch: the main goroutine, the goroutines launched so far,
the number of elements buffered in `sem`, the counter of `wg`, the number of
`wg.Done()` calls so far, and the output so far. -/
structure State where
  pc : MainPc
  tasks : List Goroutine
  sem : Nat
  wg : Int
  signals : Nat
  log : List Effect
deriving DecidableEq, Repr

/-- A scheduling choice: the main goroutine moves, or goroutine `i` moves; `r` is the
result of the external operations, read when the move is the call of `establishWebp`. -/
inductive Action where
  | main
  | task (i : Nat) (r : Outcomes)
deriving DecidableEq, Repr

/-- The state when the loop is entered. -/
def init : State := State.mk (.add 0) [] 0 0 0 []

/-- The progress message of line 147. -/
def progressLine (cfg : Config) (a : TaskArgs) : String :=
  toString a.index ++ "/" ++ toString cfg.items.length ++ "\n正在转换文件: " ++ a.filePath ++ "\n"

/-- One atomic move. `none` means the chosen goroutine cannot move: it has ended, it is
blocked on a full or empty channel, or `wg.Wait()` is blocked on a non-zero counter. -/
def step (cfg : Config) (s : State) : Action → Option State
  | .main =>
    match s.pc with
    | .add i =>
      if i < cfg.items.length then some { s with wg := s.wg + 1, pc := .spawn i }
      else some { s with pc := .wait }
    | .spawn i =>
      match cfg.items[i]? with
      | none => none
      | some a =>
        some { s with tasks := s.tasks ++ [Goroutine.mk a .start 0 0 0], pc := .add (i + 1) }
    | .wait => if s.wg = 0 then some { s with pc := .returned } else none
    | .returned => none
  | .task i r =>
    match s.tasks[i]? with
    | none => none
    | some g =>
      match g.phase with
      | .start =>
        if s.sem < cfg.limit then
          some { s with
            sem := s.sem + 1,
            tasks := s.tasks.set i { g with phase := .holding, sends := g.sends + 1 } }
        else none
      | .holding =>
        some { s with
          log := s.log ++ [.stdout (progressLine cfg g.args)],
          tasks := s.tasks.set i { g with phase := .transforming } }
      | .transforming =>
        some { s with
          log := s.log ++ establishWebp r g.args.filePath g.args.output cfg.quality,
          tasks := s.tasks.set i { g with phase := .transformed } }
      | .transformed =>
        if 0 < s.sem then
          some { s with
            sem := s.sem - 1,
            tasks := s.tasks.set i { g with phase := .released, recvs := g.recvs + 1 } }
        else none
      | .released =>
        some { s with
          wg := s.wg - 1,
          signals := s.signals + 1,
          tasks := s.tasks.set i { g with phase := .done, dones := g.dones + 1 } }
      | .done => none

/-- The state after a schedule, when every move of it is possible. -/
def run (cfg : Config) : State → List Action → Option State
  | s, [] => some s
  | s, a :: rest =>
    match step cfg s a with
    | none => none
    | some s' => run cfg s' rest

/-- The program point inside `establishWebp`. -/
def Phase.inTransform : Phase → Bool
  | .transforming => true
  | _ => false

/-- The program points past the send on `sem` and before the receive from it. -/
def Phase.holdsSlot : Phase → Bool
  | .holding => true
  | .transforming => true
  | .transformed => true
  | _ => false

/-- The program point past `wg.Done()`. -/
def Phase.hasSignalled : Phase → Bool
  | .done => true
  | _ => false

/-- The number of goroutines inside `establishWebp`. -/
def running (s : State) : Nat :=
  s.tasks.countP (fun g => g.phase.inTransform)

/-- The number of goroutines that hold a slot of `sem`. -/
def holders (s : State) : Nat :=
  s.tasks.countP (fun g => g.phase.holdsSlot)

/-- The number of goroutines launched that have not called `wg.Done()`. -/
def unsignalled (s : State) : Nat :=
  s.tasks.countP (fun g => !g.phase.hasSignalled)

/-- The number of goroutines that have called `wg.Done()`. -/
def signalled (s : State) : Nat :=
  s.tasks.countP (fun g => g.phase.hasSignalled)

/-- The number of files for which the main goroutine has executed `go`. -/
def MainPc.launched (n : Nat) : MainPc → Nat
  | .add i => i
  | .spawn i => i
  | .wait => n
  | .returned => n

/-- The number of `wg.Add(1)` calls not yet followed by their `go`. -/
def MainPc.pending : MainPc → Nat
  | .spawn _ => 1
  | _ => 0

/-- The first error `filepath.Walk` hands to the callback, if any. -/
def walkError (entries : List WalkEntry) : Option String :=
  entries.findSome? (fun e => e.err)

/-- The goroutine arguments of lines 136-137 for a list of files, numbered from 0. -/
def taskArgsOf (files : List File) : List TaskArgs :=
  files.enum.map (fun p => TaskArgs.mk p.1 p.2.source p.2.destination)

/-! ## Concrete runs -/

/-- The directory part of a path without a trailing separator. -/
def dirOf (p : String) : String :=
  ⟨((p.data.reverse.dropWhile (fun c => c != '/')).drop 1).reverse⟩

/-- A machine with 4 processors, a directory `root` holding `a.jpg`, `b.png` and
`c.txt`, a file `photo.jpg`, and a directory `broken` whose sub-directory `sub` cannot
be read.  Every other path does not exist. -/
def sampleEnv : Env where
  NumCPU := 4
  stat := fun p =>
    if p = "root" ∨ p = "broken" then .ok true
    else if p = "photo.jpg" then .ok false
    else .error ("stat " ++ p ++ ": no such file or directory")
  walk := fun d =>
    if d = "root" then
      [WalkEntry.mk "root" "root" true none,
        WalkEntry.mk "root/a.jpg" "a.jpg" false none,
        WalkEntry.mk "root/b.png" "b.png" false none,
        WalkEntry.mk "root/c.txt" "c.txt" false none]
    else if d = "broken" then
      [WalkEntry.mk "broken" "broken" true none,
        WalkEntry.mk "broken/a.jpg" "a.jpg" false none,
        WalkEntry.mk "broken/sub" "sub" true (some "open broken/sub: permission denied"),
        WalkEntry.mk "broken/z.png" "z.png" false none]
    else []
  Dir := dirOf
  lowerTable := id

/-- The command line `-i broken`. -/
def brokenFlags : Flags := Flags.mk "broken" 90 0 false

/-- The command line `-i missing`. -/
def missingFlags : Flags := Flags.mk "missing" 90 0 false

/-- The command line `-i photo.jpg -q 90`. -/
def photoFlags : Flags := Flags.mk "photo.jpg" 90 0 false

/-- The command line `-i root -t 2`. -/
def rootFlags : Flags := Flags.mk "root" 90 2 false

/-- The command line `-i root -t -1`. -/
def negativeFlags : Flags := Flags.mk "root" 90 (-1) false

/-- The values of the counters (sends, receives, dones) at each program point of a
goroutine that follows lines 139-149. -/
def Phase.counters : Phase → Nat × Nat × Nat
  | .start => (0, 0, 0)
  | .holding => (1, 0, 0)
  | .transforming => (1, 0, 0)
  | .transformed => (1, 0, 0)
  | .released => (1, 1, 0)
  | .done => (1, 1, 1)

/-- The dispatch of two items with one slot. -/
def sampleConfig : Config :=
  Config.mk 1 90 (taskArgsOf [File.mk "root" "a.jpg", File.mk "root" "b.png"])

/-- Results of the external operations where the source cannot be opened. -/
def failing : Outcomes := Outcomes.mk (some "open root/a.jpg: permission denied") none none none

/-- Results of the external operations where all four succeed. -/
def succeeding : Outcomes := Outcomes.mk none none none none

/-- A complete schedule of `sampleConfig`: both goroutines are launched, the second one
runs to its end first and succeeds, then the first one runs and fails at open, then
`wg.Wait()` returns. -/
def sampleSchedule : List Action :=
  [.main, .main, .main, .main, .main,
    .task 1 succeeding, .task 1 succeeding, .task 1 succeeding, .task 1 succeeding,
    .task 1 succeeding,
    .task 0 failing, .task 0 failing, .task 0 failing, .task 0 failing, .task 0 failing,
    .main]

/-- A schedule of `sampleConfig` that stops while the first goroutine is inside
`establishWebp` and the second one is launched and waits for the slot. -/
def midSchedule : List Action :=
  [.main, .main, .main, .main, .task 0 failing, .task 0 failing]

/-- The invariant of the dispatch: the goroutines launched are those of the files already
handled by the loop; the buffer of `sem` holds one element per goroutine between its send
and its receive and never more than the capacity; the counter of `wg` is the number of
goroutines launched or announced that have not called `wg.Done()`; every goroutine
has made the sends, receives and `wg.Done()` calls of its program point; the goroutines
carry the arguments of the files handled so far, in order; and past `wg.Wait()` every
goroutine has called `wg.Done()`. -/
structure Inv (cfg : Config) (s : State) : Prop where
  len : s.tasks.length = s.pc.launched cfg.items.length
  bound : s.pc.launched cfg.items.length + s.pc.pending ≤ cfg.items.length
  sem_eq : s.sem = holders s
  sem_le : s.sem ≤ cfg.limit
  wg_eq : s.wg = (unsignalled s : Int) + (s.pc.pending : Int)
  sig_eq : s.signals = signalled s
  ghost : ∀ g ∈ s.tasks, (g.sends, g.recvs, g.dones) = g.phase.counters
  args : s.tasks.map (fun g => g.args) = cfg.items.take (s.pc.launched cfg.items.length)
  fin : s.pc = .returned → unsignalled s = 0

/-- The state `midSchedule` leads to. -/
def midState : State := (run sampleConfig init midSchedule).getD init

/-- The state `sampleSchedule` leads to. -/
def finalState : State := (run sampleConfig init sampleSchedule).getD init

/-! ## Discovery: proofs -/

theorem lastDotSuffix_of_not_mem (l : List Char) (h : '.' ∉ l) : lastDotSuffix l = [] := by
  induction l with
  | nil => rfl
  | cons c cs ih =>
    have h1 : '.' ∉ cs := fun hc => h (List.mem_cons_of_mem _ hc)
    have h2 : c ≠ '.' := fun hc => h (by simp [hc])
    simp [lastDotSuffix, h1, h2]

theorem lastDotSuffix_append_of_mem (p q : List Char) (h : '.' ∈ q) :
    lastDotSuffix (p ++ q) = lastDotSuffix q := by
  induction p with
  | nil => rfl
  | cons c cs ih =>
    have h1 : '.' ∈ cs ++ q := List.mem_append_right _ h
    simp [lastDotSuffix, h1, ih]

theorem lastDotSuffix_append_dot (p q : List Char) (h : '.' ∉ q) :
    lastDotSuffix (p ++ '.' :: q) = '.' :: q := by
  rw [lastDotSuffix_append_of_mem p _ (List.mem_cons_self _ _)]
  simp [lastDotSuffix, h]

theorem lastDotSuffix_append_keeps (p q : List Char) (hp : '.' ∈ p) (hq : '.' ∉ q) :
    ∃ m, lastDotSuffix (p ++ q) = '.' :: (m ++ q) := by
  induction p with
  | nil => simp at hp
  | cons c cs ih =>
    by_cases h1 : '.' ∈ cs
    · obtain ⟨m, hm⟩ := ih h1
      refine ⟨m, ?_⟩
      have h2 : '.' ∈ cs ++ q := List.mem_append_left _ h1
      simp [lastDotSuffix, h2, hm]
    · have hc : c = '.' := by
        rcases List.mem_cons.mp hp with h | h
        · exact h.symm
        · exact absurd h h1
      have h2 : '.' ∉ cs ++ q := by simp [h1, hq]
      exact ⟨cs, by simp [lastDotSuffix, h2, hc]⟩

theorem extScan_spec (r acc : List Char) (hs : '/' ∉ acc) (hd : '.' ∉ acc) :
    extScan r acc = lastDotSuffix (r.reverse ++ acc)
      ∨ (extScan r acc = [] ∧ '/' ∈ lastDotSuffix (r.reverse ++ acc)) := by
  induction r generalizing acc with
  | nil => left; simp [extScan, lastDotSuffix_of_not_mem acc hd]
  | cons c rest ih =>
    have hl : (c :: rest).reverse ++ acc = rest.reverse ++ c :: acc := by simp
    rw [hl]
    by_cases h1 : c = '/'
    · subst h1
      by_cases h2 : '.' ∈ rest.reverse
      · right
        have hq : '.' ∉ '/' :: acc := by simp [hd]
        obtain ⟨m, hm⟩ := lastDotSuffix_append_keeps rest.reverse ('/' :: acc) h2 hq
        refine ⟨by simp [extScan], ?_⟩
        rw [hm]; simp
      · left
        have h3 : '.' ∉ rest.reverse ++ '/' :: acc := by
          simp only [List.mem_append, not_or]
          exact ⟨h2, by simp [hd]⟩
        rw [lastDotSuffix_of_not_mem _ h3]; simp [extScan]
    · by_cases h2 : c = '.'
      · subst h2
        left
        rw [lastDotSuffix_append_dot _ _ hd]; simp [extScan]
      · have h3 : '/' ∉ c :: acc := by
          simp only [List.mem_cons, not_or]; exact ⟨fun h => h1 h.symm, hs⟩
        have h4 : '.' ∉ c :: acc := by
          simp only [List.mem_cons, not_or]; exact ⟨fun h => h2 h.symm, hd⟩
        have h5 : extScan (c :: rest) acc = extScan rest (c :: acc) := by
          simp [extScan, h1, h2]
        rw [h5]
        exact ih (c :: acc) h3 h4

theorem unicodeToLower_slash (table : Char → Char) : unicodeToLower table '/' = '/' := by
  unfold unicodeToLower
  rw [if_pos (by decide), if_neg (by decide)]

theorem ToLower_slash_not_recognised (table : Char → Char) (s : List Char) (h : '/' ∈ s) :
    ToLower table ⟨s⟩ ∉ [".jpg", ".jpeg", ".png", ".gif", ".bmp"] := by
  intro hm
  have hin : '/' ∈ (ToLower table ⟨s⟩).data := by
    show '/' ∈ s.map (unicodeToLower table)
    exact List.mem_map.mpr ⟨'/', h, unicodeToLower_slash table⟩
  simp only [List.mem_cons, List.mem_singleton, List.not_mem_nil, or_false] at hm
  rcases hm with h | h | h | h | h <;> (rw [h] at hin; revert hin; decide)

theorem supportedExtensions_iff (x : String) :
    supportedExtensions x = decide (x ∈ [".jpg", ".jpeg", ".png", ".gif", ".bmp"]) := by
  simp [supportedExtensions, Bool.or_assoc]

theorem supported_eq_recognised (table : Char → Char) (name : String) :
    supportedExtensions (ToLower table (Ext name)) = recognised table name := by
  have hrev : name.data.reverse.reverse ++ [] = name.data := by simp
  rcases extScan_spec name.data.reverse [] (by simp) (by simp) with h | ⟨h1, h2⟩
  · rw [hrev] at h
    simp only [Ext, recognised, h, supportedExtensions_iff]
  · rw [hrev] at h2
    have hn := ToLower_slash_not_recognised table _ h2
    have he : supportedExtensions (ToLower table (Ext name)) = false := by
      simp only [Ext, h1]; rfl
    rw [he]
    simp only [recognised]
    exact (decide_eq_false hn).symm

theorem walkFn_of_no_err (env : Env) (acc : List File) (e : WalkEntry) (h : e.err = none) :
    walkFn env acc e
      = (acc ++ (if isImageEntry env e then [File.mk (env.Dir e.path) e.name] else []), none) := by
  unfold walkFn isImageEntry
  rw [h]
  simp only [supported_eq_recognised]
  cases e.isDir <;> cases recognised env.lowerTable e.name <;> simp

theorem filepathWalk_of_no_err (env : Env) (entries : List WalkEntry) (acc : List File)
    (h : ∀ e ∈ entries, e.err = none) :
    filepathWalk (walkFn env) entries acc
      = (acc ++ (entries.filter (isImageEntry env)).map (fun e => File.mk (env.Dir e.path) e.name),
          none) := by
  induction entries generalizing acc with
  | nil => simp [filepathWalk]
  | cons e rest ih =>
    have he := h e (List.mem_cons_self _ _)
    have hr : ∀ x ∈ rest, x.err = none := fun x hx => h x (List.mem_cons_of_mem _ hx)
    simp only [filepathWalk, walkFn_of_no_err env acc e he]
    rw [ih _ hr]
    by_cases hi : isImageEntry env e = true
    · simp [hi, List.filter_cons]
    · simp [hi, List.filter_cons]

/-- C3: when the walk hands no error to the callback, `getDirAllImageFiles` returns, with a
nil error, exactly the walk entries that are not directories and whose name has a
recognised extension (suffix from the last dot, lower-cased, in the fixed set), in walk
order, each once, as `File` values of the directory of the path and the name. -/
theorem getDirAllImageFiles_returns_recognised (env : Env) (directory : String)
    (h : ∀ e ∈ env.walk directory, e.err = none) :
    getDirAllImageFiles env directory
      = (((env.walk directory).filter (isImageEntry env)).map
            (fun e => File.mk (env.Dir e.path) e.name), none) := by
  unfold getDirAllImageFiles
  rw [filepathWalk_of_no_err env _ [] h]
  simp

/-- C3 at scenario 1: the walk over `root`, `a.jpg`, `b.png`, `c.txt` has no error and
returns `a.jpg` and `b.png`. -/
theorem getDirAllImageFiles_returns_recognised_witness :
    (∀ e ∈ sampleEnv.walk "root", e.err = none)
      ∧ getDirAllImageFiles sampleEnv "root"
          = ([File.mk "root" "a.jpg", File.mk "root" "b.png"], none) :=
  ⟨by decide,
    (getDirAllImageFiles_returns_recognised sampleEnv "root" (by decide)).trans (by decide)⟩

/-! ## The main goroutine: proofs -/

theorem launchedOf_rangeLoop (i : Nat) (files : List File) :
    launchedOf (rangeLoop i files)
      = (files.enumFrom i).map (fun p => TaskArgs.mk p.1 p.2.source p.2.destination) := by
  induction files generalizing i with
  | nil => rfl
  | cons f rest ih =>
    simp only [rangeLoop, launchedOf, List.filterMap_cons, List.enumFrom_cons, List.map_cons]
    exact congrArg _ (ih (i + 1))

theorem callsOf_rangeLoop (i : Nat) (files : List File) : callsOf (rangeLoop i files) = [] := by
  induction files generalizing i with
  | nil => rfl
  | cons f rest ih =>
    simp only [rangeLoop, callsOf, List.filterMap_cons]
    exact ih (i + 1)

theorem printedOf_rangeLoop (i : Nat) (files : List File) :
    printedOf (rangeLoop i files) = [] := by
  induction files generalizing i with
  | nil => rfl
  | cons f rest ih =>
    simp only [rangeLoop, printedOf, List.filterMap_cons]
    exact ih (i + 1)

theorem capacitiesOf_rangeLoop (i : Nat) (files : List File) :
    capacitiesOf (rangeLoop i files) = [] := by
  induction files generalizing i with
  | nil => rfl
  | cons f rest ih =>
    simp only [rangeLoop, capacitiesOf, List.filterMap_cons]
    exact ih (i + 1)

theorem capacitiesOf_append (a b : List Event) :
    capacitiesOf (a ++ b) = capacitiesOf a ++ capacitiesOf b :=
  List.filterMap_append _ _ _

theorem launchedOf_append (a b : List Event) :
    launchedOf (a ++ b) = launchedOf a ++ launchedOf b :=
  List.filterMap_append _ _ _

theorem filepathWalk_err (env : Env) (entries : List WalkEntry) (acc : List File) :
    (filepathWalk (walkFn env) entries acc).2 = walkError entries := by
  induction entries generalizing acc with
  | nil => rfl
  | cons e rest ih =>
    cases he : e.err with
    | some x =>
      have hw : walkFn env acc e = (acc, some x) := by simp [walkFn, he]
      simp [filepathWalk, hw, walkError, List.findSome?_cons, he]
    | none =>
      rw [filepathWalk, walkFn_of_no_err env acc e he]
      simp only [walkError, List.findSome?_cons, he]
      exact ih _

theorem getDirAllImageFiles_err (env : Env) (directory : String) :
    (getDirAllImageFiles env directory).2 = walkError (env.walk directory) :=
  filepathWalk_err env _ []

theorem main_of_stat_error (flags : Flags) (env : Env)
    (hcap : 0 ≤ numCPU flags.thread env.NumCPU) (hhelp : flags.help = false) (err : String)
    (h : env.stat flags.input = .error err) :
    main flags env
      = ([.makeChan (numCPU flags.thread env.NumCPU), .stat flags.input,
          .println ("错误: " ++ err)], .returned) := by
  simp [main, not_lt.mpr hcap, hhelp, isDirectory, h]

theorem main_of_walk_error (flags : Flags) (env : Env)
    (hcap : 0 ≤ numCPU flags.thread env.NumCPU) (hhelp : flags.help = false) (err : String)
    (h : env.stat flags.input = .ok true) (hw : walkError (env.walk flags.input) = some err) :
    main flags env
      = ([.makeChan (numCPU flags.thread env.NumCPU), .stat flags.input, .walk flags.input,
          .println ("读取目录错误: " ++ err)], .returned) := by
  have he := getDirAllImageFiles_err env flags.input
  rw [hw] at he
  rcases hg : getDirAllImageFiles env flags.input with ⟨files, e⟩
  rw [hg] at he
  simp only at he
  subst he
  simp [main, not_lt.mpr hcap, hhelp, isDirectory, h, hg]

theorem main_of_batch (flags : Flags) (env : Env)
    (hcap : 0 ≤ numCPU flags.thread env.NumCPU) (hhelp : flags.help = false)
    (h : env.stat flags.input = .ok true) (files : List File)
    (hg : getDirAllImageFiles env flags.input = (files, none)) :
    main flags env
      = ([.makeChan (numCPU flags.thread env.NumCPU), .stat flags.input, .walk flags.input]
          ++ rangeLoop 0 files ++ [.wgWait], .returned) := by
  simp [main, not_lt.mpr hcap, hhelp, isDirectory, h, hg]

theorem main_of_single (flags : Flags) (env : Env)
    (hcap : 0 ≤ numCPU flags.thread env.NumCPU) (hhelp : flags.help = false)
    (h : env.stat flags.input = .ok false) :
    main flags env
      = ([.makeChan (numCPU flags.thread env.NumCPU), .stat flags.input,
          .call flags.input (flags.input ++ ".webp") flags.quality, .wgWait], .returned) := by
  simp [main, not_lt.mpr hcap, hhelp, isDirectory, h]

/-- C5: in a run that reaches the classification of the input (the channel was made, `-help`
is not set), if `os.Stat` of the input fails with `err`, or the input is a directory and
the walk hands the error `err` to the callback at some entry, then `main` prints exactly
one line, which carries `err`, launches no goroutine and makes no call of `establishWebp`,
whatever `getDirAllImageFiles` had collected before the error. -/
theorem main_fails_fast (flags : Flags) (env : Env)
    (hcap : 0 ≤ numCPU flags.thread env.NumCPU) (hhelp : flags.help = false) (err : String)
    (h : env.stat flags.input = .error err
      ∨ (env.stat flags.input = .ok true ∧ walkError (env.walk flags.input) = some err)) :
    (env.stat flags.input = .error err → printedOf (main flags env).1 = ["错误: " ++ err])
      ∧ (env.stat flags.input = .ok true →
          printedOf (main flags env).1 = ["读取目录错误: " ++ err])
      ∧ launchedOf (main flags env).1 = []
      ∧ callsOf (main flags env).1 = []
      ∧ Event.wgAdd ∉ (main flags env).1 := by
  rcases h with h | ⟨h, hw⟩
  · rw [main_of_stat_error flags env hcap hhelp err h]
    refine ⟨fun _ => rfl, fun h2 => ?_, rfl, rfl, by simp⟩
    rw [h] at h2; cases h2
  · rw [main_of_walk_error flags env hcap hhelp err h hw]
    refine ⟨fun h2 => ?_, fun _ => rfl, rfl, rfl, by simp⟩
    rw [h] at h2; cases h2

/-- C5 on the directory `broken`: the walk collects `a.jpg`, then meets an unreadable
sub-directory; one line is printed and nothing is launched or called. -/
theorem main_fails_fast_witness :
    (getDirAllImageFiles sampleEnv "broken").1 = [File.mk "broken" "a.jpg"]
      ∧ printedOf (main brokenFlags sampleEnv).1
          = ["读取目录错误: open broken/sub: permission denied"]
      ∧ launchedOf (main brokenFlags sampleEnv).1 = []
      ∧ callsOf (main brokenFlags sampleEnv).1 = [] := by
  have h := main_fails_fast brokenFlags sampleEnv (by decide) rfl
    "open broken/sub: permission denied" (Or.inr ⟨rfl, by decide⟩)
  exact ⟨by decide, h.2.1 rfl, h.2.2.1, h.2.2.2.1⟩

/-- C7, as the claim states it, fails: with `-t -1` on a machine with 4 processors the
capacity given to `make` is -1, which is not positive, and `main` panics there. -/
theorem negative_thread_flag_panics :
    1 ≤ sampleEnv.NumCPU
      ∧ capacitiesOf (main negativeFlags sampleEnv).1 = [-1]
      ∧ ¬ (1 ≤ numCPU negativeFlags.thread sampleEnv.NumCPU)
      ∧ (main negativeFlags sampleEnv).2 = .panicked := by
  decide

/-- C7 amended: for every value `t` of `-t` and every processor count `c ≥ 1`, the one
channel `main` makes has capacity `c` when `t = 0` and `t` otherwise, and this capacity is
at least 1 exactly when `t ≥ 0`. -/
theorem main_channel_capacity (flags : Flags) (env : Env) (hc : 1 ≤ env.NumCPU) :
    capacitiesOf (main flags env).1 = [if flags.thread = 0 then env.NumCPU else flags.thread]
      ∧ (1 ≤ (if flags.thread = 0 then env.NumCPU else flags.thread) ↔ 0 ≤ flags.thread) := by
  constructor
  · unfold main
    simp only [numCPU]
    split_ifs <;> first
      | rfl
      | (split
         · rfl
         · split
           · rfl
           · rw [capacitiesOf_append, capacitiesOf_append, capacitiesOf_rangeLoop]; rfl
         · rfl)
  · split_ifs with h
    · simp [h, hc]
    · omega

/-- C7 amended, at `-t 2` on a machine with 4 processors: the capacity is 2. -/
theorem main_channel_capacity_witness :
    1 ≤ sampleEnv.NumCPU ∧ capacitiesOf (main rootFlags sampleEnv).1 = [2] :=
  ⟨by decide, (main_channel_capacity rootFlags sampleEnv (by decide)).1.trans (by decide)⟩

/-- C8, as the claim states it, fails: for the missing path `os.Stat` fails, `main` prints
the message and returns, and the exit status is 0. -/
theorem missing_path_exits_zero :
    (isDirectory sampleEnv missingFlags.input).2
        = some "stat missing: no such file or directory"
      ∧ printedOf (main missingFlags sampleEnv).1
          = ["错误: stat missing: no such file or directory"]
      ∧ ¬ ((main missingFlags sampleEnv).2.exitStatus ≠ 0) := by
  decide

/-- C8 amended: in a run that reaches the classification of the input, when `isDirectory`
or `getDirAllImageFiles` returns the error `err`, `main` prints one line that carries
`err` and returns normally, so the process ends with exit status 0. -/
theorem main_precondition_exit (flags : Flags) (env : Env)
    (hcap : 0 ≤ numCPU flags.thread env.NumCPU) (hhelp : flags.help = false) (err : String)
    (h : (isDirectory env flags.input).2 = some err
      ∨ ((isDirectory env flags.input) = (true, none)
          ∧ (getDirAllImageFiles env flags.input).2 = some err)) :
    (printedOf (main flags env).1 = ["错误: " ++ err]
        ∨ printedOf (main flags env).1 = ["读取目录错误: " ++ err])
      ∧ (main flags env).2 = .returned
      ∧ (main flags env).2.exitStatus = 0 := by
  rcases h with h | ⟨h, hw⟩
  · have hs : env.stat flags.input = .error err := by
      unfold isDirectory at h
      cases hst : env.stat flags.input with
      | error e => rw [hst] at h; simp at h; rw [h]
      | ok b => rw [hst] at h; simp at h
    rw [main_of_stat_error flags env hcap hhelp err hs]
    exact ⟨Or.inl rfl, rfl, rfl⟩
  · have hs : env.stat flags.input = .ok true := by
      unfold isDirectory at h
      cases hst : env.stat flags.input with
      | error e => rw [hst] at h; simp at h
      | ok b => rw [hst] at h; simp at h; rw [h]
    rw [getDirAllImageFiles_err] at hw
    rw [main_of_walk_error flags env hcap hhelp err hs hw]
    exact ⟨Or.inr rfl, rfl, rfl⟩

/-- C8 amended, on the missing path: one line, normal return, exit status 0. -/
theorem main_precondition_exit_witness :
    printedOf (main missingFlags sampleEnv).1
        = ["错误: stat missing: no such file or directory"]
      ∧ (main missingFlags sampleEnv).2 = .returned
      ∧ (main missingFlags sampleEnv).2.exitStatus = 0 := by
  have h := main_precondition_exit missingFlags sampleEnv (by decide) rfl
    "stat missing: no such file or directory" (Or.inl (by decide))
  exact ⟨by decide, h.2.1, h.2.2⟩

/-- C10: in a run that reaches the classification of the input, when the input path is an
existing non-directory, `main` makes exactly one call of `establishWebp`, with the input
as source, the input followed by `.webp` as destination and the quality of `-q`; it
launches no goroutine and walks no directory. -/
theorem main_single_file (flags : Flags) (env : Env)
    (hcap : 0 ≤ numCPU flags.thread env.NumCPU) (hhelp : flags.help = false)
    (h : env.stat flags.input = .ok false) :
    callsOf (main flags env).1 = [(flags.input, flags.input ++ ".webp", flags.quality)]
      ∧ launchedOf (main flags env).1 = []
      ∧ walkedOf (main flags env).1 = [] := by
  rw [main_of_single flags env hcap hhelp h]
  exact ⟨rfl, rfl, rfl⟩

/-- C10 at scenario 2: input `photo.jpg`, quality 90 gives one call with destination
`photo.jpg.webp` and quality 90. -/
theorem main_single_file_witness :
    callsOf (main photoFlags sampleEnv).1 = [("photo.jpg", "photo.jpg.webp", 90)]
      ∧ launchedOf (main photoFlags sampleEnv).1 = []
      ∧ walkedOf (main photoFlags sampleEnv).1 = [] := by
  have h := main_single_file photoFlags sampleEnv (by decide) rfl rfl
  exact ⟨h.1.trans (by decide), h.2.1, h.2.2⟩

theorem split_at_last_slash (a b c d : List Char) (hb : '/' ∉ b) (hd : '/' ∉ d)
    (h : a ++ '/' :: b = c ++ '/' :: d) : a = c ∧ b = d := by
  induction a generalizing c with
  | nil =>
    cases c with
    | nil => simpa using h
    | cons y c' =>
      simp only [List.nil_append, List.cons_append, List.cons.injEq] at h
      exact absurd (h.2 ▸ List.mem_append_right c' (List.mem_cons_self _ _)) hb
  | cons x a' ih =>
    cases c with
    | nil =>
      simp only [List.nil_append, List.cons_append, List.cons.injEq] at h
      exact absurd (h.2 ▸ List.mem_append_right a' (List.mem_cons_self _ _)) hd
    | cons y c' =>
      simp only [List.cons_append, List.cons.injEq] at h
      obtain ⟨h1, h2⟩ := ih c' h.2
      exact ⟨by rw [h.1, h1], h2⟩

theorem destination_injective (f g : File) (hf : '/' ∉ f.Name.data) (hg : '/' ∉ g.Name.data)
    (h : f.destination = g.destination) : f = g := by
  have hd := congrArg String.data h
  simp only [File.destination, String.data_append] at hd
  have h1 := List.append_cancel_right hd
  simp only [List.append_assoc, List.singleton_append] at h1
  obtain ⟨hr, hn⟩ := split_at_last_slash _ _ _ _ hf hg h1
  cases f; cases g
  simp only [File.mk.injEq]
  exact ⟨String.ext hr, String.ext hn⟩

/-- C9: in batch mode the goroutine of the item `File{Root, Name}` at position `i` gets
the index `i`, the source `Root/Name` and the destination `Root/Name.webp`; and two items
whose names hold no `/` and whose (Root, Name) pairs differ have different destinations. -/
theorem batch_destinations (flags : Flags) (env : Env)
    (hcap : 0 ≤ numCPU flags.thread env.NumCPU) (hhelp : flags.help = false)
    (hdir : env.stat flags.input = .ok true) (files : List File)
    (hwalk : getDirAllImageFiles env flags.input = (files, none)) :
    launchedOf (main flags env).1
        = files.enum.map (fun p =>
            TaskArgs.mk p.1 (p.2.Root ++ "/" ++ p.2.Name) (p.2.Root ++ "/" ++ p.2.Name ++ ".webp"))
      ∧ ∀ f g : File, '/' ∉ f.Name.data → '/' ∉ g.Name.data →
          (f.Root, f.Name) ≠ (g.Root, g.Name) →
          f.Root ++ "/" ++ f.Name ++ ".webp" ≠ g.Root ++ "/" ++ g.Name ++ ".webp" := by
  constructor
  · rw [main_of_batch flags env hcap hhelp hdir files hwalk, launchedOf_append,
      launchedOf_append, launchedOf_rangeLoop]
    simp [launchedOf, List.enum, File.source, File.destination]
  · intro f g hf hg hne heq
    apply hne
    have := destination_injective f g hf hg heq
    rw [this]

/-- C9 on the directory `root`: two goroutines, for `root/a.jpg` and `root/b.png`, with
destinations `root/a.jpg.webp` and `root/b.png.webp`. -/
theorem batch_destinations_witness :
    launchedOf (main rootFlags sampleEnv).1
      = [TaskArgs.mk 0 "root/a.jpg" "root/a.jpg.webp",
          TaskArgs.mk 1 "root/b.png" "root/b.png.webp"] :=
  (batch_destinations rootFlags sampleEnv (by decide) rfl rfl
    [File.mk "root" "a.jpg", File.mk "root" "b.png"] (by decide)).1.trans (by decide)

/-! ## Transformation: proofs -/

theorem Step.label_injective : Function.Injective Step.label := by
  intro a b h
  cases a <;> cases b <;> first | rfl | (revert h; decide)

/-- C6: for every combination of results of open, decode, create and encode, a call of
`establishWebp` attempts them in that order up to and including the first one that fails.
When none fails it attempts all four, writes nothing to standard error and prints the
completion notice, which names the destination and the quality.  When one fails it
prints no notice and writes exactly one error message, made of the label of the first
failing operation (labels of different operations differ) and its error.  The notice is
printed if and only if all four succeed, and the destination is created if and only if
open and decode succeed.  The call always returns its list of effects: the function is
total and no effect ends the process. -/
theorem establishWebp_stops_at_first_failure (r : Outcomes) (input output : String)
    (quality : Int) :
    (match firstFailure r with
      | none =>
        stepsOf (establishWebp r input output quality)
            = [.openSource, .decode, .createDestination, .encode]
          ∧ stderrOf (establishWebp r input output quality) = []
          ∧ stdoutOf (establishWebp r input output quality) = [completionNotice output quality]
      | some (step, err) =>
        stepsOf (establishWebp r input output quality) = step.upTo
          ∧ stderrOf (establishWebp r input output quality) = [step.label ++ err ++ "\n"]
          ∧ stdoutOf (establishWebp r input output quality) = [])
      ∧ (completionNotice output quality ∈ stdoutOf (establishWebp r input output quality)
          ↔ r.openErr = none ∧ r.decodeErr = none ∧ r.createErr = none ∧ r.encodeErr = none)
      ∧ (Effect.osCreate output ∈ establishWebp r input output quality
          ↔ r.openErr = none ∧ r.decodeErr = none)
      ∧ Function.Injective Step.label := by
  refine ⟨?_, ?_, ?_, Step.label_injective⟩
  · rcases r with ⟨_ | a, _ | b, _ | c, _ | d⟩ <;>
      simp [establishWebp, firstFailure, stepsOf, stderrOf, stdoutOf, Effect.step?,
        Step.upTo, Step.label, completionNotice]
  · rcases r with ⟨_ | a, _ | b, _ | c, _ | d⟩ <;>
      simp [establishWebp, stdoutOf, completionNotice]
  · rcases r with ⟨_ | a, _ | b, _ | c, _ | d⟩ <;>
      simp [establishWebp]

/-- C6 on a source that opens but does not decode: open and decode are attempted, the
destination is not created, and the one message is the decode error. -/
theorem establishWebp_stops_at_first_failure_witness :
    stepsOf (establishWebp (Outcomes.mk none (some "image: unknown format") none
        (some "disk full")) "a.jpg" "a.jpg.webp" 90) = [.openSource, .decode]
      ∧ stderrOf (establishWebp (Outcomes.mk none (some "image: unknown format") none
        (some "disk full")) "a.jpg" "a.jpg.webp" 90)
          = ["Error decoding image: image: unknown format\n"]
      ∧ stdoutOf (establishWebp (Outcomes.mk none (some "image: unknown format") none
        (some "disk full")) "a.jpg" "a.jpg.webp" 90) = [] := by
  have h := (establishWebp_stops_at_first_failure (Outcomes.mk none
    (some "image: unknown format") none (some "disk full")) "a.jpg" "a.jpg.webp" 90).1
  exact ⟨h.1, h.2.1.trans (by decide), h.2.2⟩

/-! ## The batch dispatch: proofs -/

theorem countP_set_add (p : Goroutine → Bool) (l : List Goroutine) (i : Nat)
    (g g' : Goroutine) (h : l[i]? = some g) :
    (l.set i g').countP p + (if p g then 1 else 0)
      = l.countP p + (if p g' then 1 else 0) := by
  induction l generalizing i with
  | nil => simp at h
  | cons x xs ih =>
    cases i with
    | zero =>
      simp only [List.getElem?_cons_zero, Option.some.injEq] at h
      subst h
      simp only [List.set_cons_zero, List.countP_cons]
      omega
    | succ n =>
      simp only [List.getElem?_cons_succ] at h
      have := ih n h
      simp only [List.set_cons_succ, List.countP_cons]
      omega

theorem map_set_same {β : Type} (f : Goroutine → β) (l : List Goroutine) (i : Nat)
    (g g' : Goroutine) (h : l[i]? = some g) (hf : f g' = f g) :
    (l.set i g').map f = l.map f := by
  induction l generalizing i with
  | nil => rfl
  | cons x xs ih =>
    cases i with
    | zero =>
      simp only [List.getElem?_cons_zero, Option.some.injEq] at h
      subst h
      simp [hf]
    | succ n =>
      simp only [List.getElem?_cons_succ] at h
      simp only [List.set_cons_succ, List.map_cons, ih n h]

theorem inv_init (cfg : Config) : Inv cfg init := by
  refine ⟨rfl, ?_, rfl, Nat.zero_le _, rfl, rfl, ?_, ?_, ?_⟩
  · simp [ImageW.init, MainPc.launched, MainPc.pending]
  · intro g hg; simp [ImageW.init] at hg
  · simp [ImageW.init, MainPc.launched]
  · intro h; cases h

theorem inv_step_main (cfg : Config) (s s' : State) (h : Inv cfg s)
    (hs : step cfg s .main = some s') : Inv cfg s' := by
  obtain ⟨hlen, hbound, hsem, hle, hwg, hsig, hghost, hargs, hfin⟩ := h
  unfold step at hs
  cases hpc : s.pc with
  | add i =>
    simp only [hpc] at hs
    rw [hpc] at hlen hbound hwg hargs
    simp only [MainPc.launched, MainPc.pending] at hlen hbound hwg hargs
    split_ifs at hs with hlt
    · obtain rfl := Option.some.inj hs
      refine ⟨hlen, ?_, hsem, hle, ?_, hsig, hghost, hargs, ?_⟩
      · simp only [MainPc.launched, MainPc.pending]; omega
      · show s.wg + 1 = (unsignalled s : Int) + ((1 : Nat) : Int)
        omega
      · intro h; cases h
    · obtain rfl := Option.some.inj hs
      have hi : i = cfg.items.length := by omega
      refine ⟨?_, ?_, hsem, hle, ?_, hsig, hghost, ?_, ?_⟩
      · show s.tasks.length = cfg.items.length
        omega
      · simp only [MainPc.launched, MainPc.pending]; omega
      · show s.wg = (unsignalled s : Int) + ((0 : Nat) : Int)
        omega
      · show s.tasks.map (fun g => g.args) = cfg.items.take cfg.items.length
        rw [hargs, hi]
      · intro h; cases h
  | spawn i =>
    simp only [hpc] at hs
    rw [hpc] at hlen hbound hwg hargs
    simp only [MainPc.launched, MainPc.pending] at hlen hbound hwg hargs
    cases ha : cfg.items[i]? with
    | none => simp [ha] at hs
    | some a =>
      simp only [ha] at hs
      obtain rfl := Option.some.inj hs
      refine ⟨?_, ?_, ?_, hle, ?_, ?_, ?_, ?_, ?_⟩
      · simp [MainPc.launched, hlen]
      · simp only [MainPc.launched, MainPc.pending]; omega
      · show s.sem = holders _
        simp [holders, hsem, List.countP_singleton, Phase.holdsSlot]
      · show s.wg = (unsignalled _ : Int) + ((0 : Nat) : Int)
        simp only [unsignalled] at hwg ⊢
        simp only [List.countP_append, List.countP_singleton]
        rw [if_pos (by rfl)]
        omega
      · show s.signals = signalled _
        simp [signalled, hsig, List.countP_singleton, Phase.hasSignalled]
      · intro g hg
        rcases List.mem_append.mp hg with hg | hg
        · exact hghost g hg
        · simp only [List.mem_singleton] at hg
          subst hg; rfl
      · show (s.tasks ++ [Goroutine.mk a .start 0 0 0]).map (fun g => g.args)
          = cfg.items.take (i + 1)
        rw [List.take_succ, ha, List.map_append, hargs]
        rfl
      · intro h; cases h
  | wait =>
    simp only [hpc] at hs
    rw [hpc] at hlen hbound hwg hargs
    split_ifs at hs with hz
    obtain rfl := Option.some.inj hs
    refine ⟨hlen, hbound, hsem, hle, hwg, hsig, hghost, hargs, ?_⟩
    intro _
    simp only [MainPc.pending] at hwg
    show unsignalled s = 0
    omega
  | returned =>
    simp [hpc] at hs

theorem inv_of_task_update (cfg : Config) (s s' : State) (i : Nat) (g g' : Goroutine)
    (h : Inv cfg s) (hg : s.tasks[i]? = some g)
    (hpc : s'.pc = s.pc) (ht : s'.tasks = s.tasks.set i g')
    (hsem : s'.sem + (if g.phase.holdsSlot then 1 else 0)
      = s.sem + (if g'.phase.holdsSlot then 1 else 0))
    (hle : s'.sem ≤ cfg.limit)
    (hwg : s'.wg + (((if !g.phase.hasSignalled then 1 else 0 : Nat)) : Int)
      = s.wg + (((if !g'.phase.hasSignalled then 1 else 0 : Nat)) : Int))
    (hsig : s'.signals + (if g.phase.hasSignalled then 1 else 0)
      = s.signals + (if g'.phase.hasSignalled then 1 else 0))
    (hghost : (g'.sends, g'.recvs, g'.dones) = g'.phase.counters)
    (hargs : g'.args = g.args) (hnd : g.phase.hasSignalled = false) : Inv cfg s' := by
  obtain ⟨hlen, hbound, hsem0, _, hwg0, hsig0, hghost0, hargs0, hfin0⟩ := h
  have hH := countP_set_add (fun g => g.phase.holdsSlot) s.tasks i g g' hg
  have hU := countP_set_add (fun g => !g.phase.hasSignalled) s.tasks i g g' hg
  have hS := countP_set_add (fun g => g.phase.hasSignalled) s.tasks i g g' hg
  simp only at hH hU hS
  refine ⟨?_, ?_, ?_, hle, ?_, ?_, ?_, ?_, ?_⟩
  · rw [ht, hpc, List.length_set]; exact hlen
  · rw [hpc]; exact hbound
  · simp only [holders] at hsem0 ⊢
    rw [ht]; omega
  · simp only [unsignalled] at hwg0 ⊢
    rw [ht, hpc]; omega
  · simp only [signalled] at hsig0 ⊢
    rw [ht]; omega
  · intro x hx
    rw [ht] at hx
    rcases List.mem_or_eq_of_mem_set hx with hx | hx
    · exact hghost0 x hx
    · rw [hx]; exact hghost
  · rw [ht, hpc, map_set_same (fun g => g.args) s.tasks i g g' hg hargs]
    exact hargs0
  · intro hret
    rw [hpc] at hret
    have h0 := hfin0 hret
    simp only [unsignalled, List.countP_eq_zero] at h0
    exact absurd (by simp [hnd]) (h0 g (List.getElem?_mem hg))

theorem inv_step_task (cfg : Config) (s s' : State) (i : Nat) (r : Outcomes) (h : Inv cfg s)
    (hs : step cfg s (.task i r) = some s') : Inv cfg s' := by
  unfold step at hs
  cases hg : s.tasks[i]? with
  | none => simp [hg] at hs
  | some g =>
    simp only [hg] at hs
    have hc := h.ghost g (List.getElem?_mem hg)
    cases hph : g.phase <;> simp only [hph] at hs hc
    · split_ifs at hs with hlt
      obtain rfl := Option.some.inj hs
      simp only [Phase.counters, Prod.mk.injEq] at hc
      refine inv_of_task_update cfg s _ i g _ h hg rfl rfl ?_ ?_ ?_ ?_ ?_ rfl (by rw [hph]; rfl)
      · simp [hph, Phase.holdsSlot]
      · show s.sem + 1 ≤ cfg.limit
        omega
      · simp [hph, Phase.hasSignalled]
      · simp [hph, Phase.hasSignalled]
      · simp [Phase.counters, hc]
    · obtain rfl := Option.some.inj hs
      simp only [Phase.counters, Prod.mk.injEq] at hc
      refine inv_of_task_update cfg s _ i g _ h hg rfl rfl ?_ h.sem_le ?_ ?_ ?_ rfl (by rw [hph]; rfl)
      · simp [hph, Phase.holdsSlot]
      · simp [hph, Phase.hasSignalled]
      · simp [hph, Phase.hasSignalled]
      · simp [Phase.counters, hc]
    · obtain rfl := Option.some.inj hs
      simp only [Phase.counters, Prod.mk.injEq] at hc
      refine inv_of_task_update cfg s _ i g _ h hg rfl rfl ?_ h.sem_le ?_ ?_ ?_ rfl (by rw [hph]; rfl)
      · simp [hph, Phase.holdsSlot]
      · simp [hph, Phase.hasSignalled]
      · simp [hph, Phase.hasSignalled]
      · simp [Phase.counters, hc]
    · split_ifs at hs with hpos
      obtain rfl := Option.some.inj hs
      simp only [Phase.counters, Prod.mk.injEq] at hc
      have hle := h.sem_le
      refine inv_of_task_update cfg s _ i g _ h hg rfl rfl ?_ ?_ ?_ ?_ ?_ rfl (by rw [hph]; rfl)
      · simp only [hph, Phase.holdsSlot]
        show s.sem - 1 + 1 = s.sem + 0
        omega
      · show s.sem - 1 ≤ cfg.limit
        omega
      · simp [hph, Phase.hasSignalled]
      · simp [hph, Phase.hasSignalled]
      · simp [Phase.counters, hc]
    · obtain rfl := Option.some.inj hs
      simp only [Phase.counters, Prod.mk.injEq] at hc
      refine inv_of_task_update cfg s _ i g _ h hg rfl rfl ?_ h.sem_le ?_ ?_ ?_ rfl (by rw [hph]; rfl)
      · simp [hph, Phase.holdsSlot]
      · simp [hph, Phase.hasSignalled]
      · simp [hph, Phase.hasSignalled]
      · simp [Phase.counters, hc]
    · simp at hs

theorem inv_step (cfg : Config) (s s' : State) (a : Action) (h : Inv cfg s)
    (hs : step cfg s a = some s') : Inv cfg s' := by
  cases a with
  | main => exact inv_step_main cfg s s' h hs
  | task i r => exact inv_step_task cfg s s' i r h hs

theorem inv_run (cfg : Config) (acts : List Action) (s s' : State) (h : Inv cfg s)
    (hr : run cfg s acts = some s') : Inv cfg s' := by
  induction acts generalizing s with
  | nil =>
    simp only [ImageW.run, Option.some.injEq] at hr
    rw [← hr]; exact h
  | cons a rest ih =>
    simp only [ImageW.run] at hr
    cases hstep : step cfg s a with
    | none => rw [hstep] at hr; cases hr
    | some s1 =>
      rw [hstep] at hr
      exact ih s1 (inv_step cfg s s1 a h hstep) hr

theorem inv_reachable (cfg : Config) (acts : List Action) (s : State)
    (hr : run cfg init acts = some s) : Inv cfg s :=
  inv_run cfg acts init s (inv_init cfg) hr

theorem hasSignalled_iff (p : Phase) : p.hasSignalled = true ↔ p = .done := by
  cases p <;> simp [Phase.hasSignalled]

theorem inTransform_holdsSlot (p : Phase) (h : p.inTransform = true) : p.holdsSlot = true := by
  cases p <;> first | rfl | simp [Phase.inTransform] at h

theorem all_done_of_unsignalled_zero (s : State) (h : unsignalled s = 0) :
    ∀ g ∈ s.tasks, g.phase = .done := by
  intro g hg
  simp only [unsignalled, List.countP_eq_zero] at h
  have := h g hg
  simp only [Bool.not_eq_true', Bool.not_eq_false] at this
  exact (hasSignalled_iff _).mp this

theorem unsignalled_zero_of_all_done (s : State) (h : ∀ g ∈ s.tasks, g.phase = .done) :
    unsignalled s = 0 := by
  simp only [unsignalled, List.countP_eq_zero]
  intro g hg
  simp [h g hg, Phase.hasSignalled]

/-- C1: in every state the batch dispatch can reach, for every list of items, every
capacity of `sem` and every interleaving, the number of goroutines inside
`establishWebp` is at most the capacity of `sem`. -/
theorem running_le_limit (cfg : Config) (acts : List Action) (s : State)
    (hr : run cfg init acts = some s) : running s ≤ cfg.limit := by
  have h := inv_reachable cfg acts s hr
  have h1 : running s ≤ holders s :=
    List.countP_mono_left (fun g _ hg => inTransform_holdsSlot g.phase hg)
  have h2 := h.sem_eq
  have h3 := h.sem_le
  omega

/-- C1 on two items and one slot: a schedule reaches a state where one goroutine is
inside `establishWebp` and the other waits for the slot. -/
theorem running_le_limit_witness :
    run sampleConfig init midSchedule = some midState
      ∧ running midState = 1
      ∧ step sampleConfig midState (.task 1 succeeding) = none
      ∧ running midState ≤ sampleConfig.limit :=
  ⟨by decide, by decide, by decide,
    running_le_limit sampleConfig midSchedule midState (by decide)⟩

/-- C2: in every reachable state of the batch dispatch in which `main` is past
`wg.Wait()`, the number of `wg.Done()` calls is the number of items, the goroutines are
those of the items, one each in order, and each has ended after calling `wg.Done()`
exactly once, whatever the results of their transformations.  And in every reachable
state in which `main` is at `wg.Wait()`, the wait can return if and only if every
launched goroutine has called `wg.Done()`. -/
theorem wait_returns_after_all_done (cfg : Config) (acts : List Action) (s : State)
    (hr : run cfg init acts = some s) :
    (s.pc = .returned →
        s.signals = cfg.items.length
          ∧ s.tasks.map (fun g => g.args) = cfg.items
          ∧ ∀ g ∈ s.tasks, g.phase = .done ∧ g.dones = 1)
      ∧ (s.pc = .wait →
          ((step cfg s .main).isSome ↔ ∀ g ∈ s.tasks, g.phase = .done)) := by
  have h := inv_reachable cfg acts s hr
  constructor
  · intro hpc
    have hdone := all_done_of_unsignalled_zero s (h.fin hpc)
    have hlen := h.len
    have hargs := h.args
    rw [hpc] at hlen hargs
    simp only [MainPc.launched, List.take_length] at hlen hargs
    refine ⟨?_, hargs, ?_⟩
    · rw [h.sig_eq, ← hlen]
      simp only [signalled, List.countP_eq_length]
      intro g hg
      exact (hasSignalled_iff _).mpr (hdone g hg)
    · intro g hg
      have hc := h.ghost g hg
      rw [hdone g hg] at hc
      simp only [Phase.counters, Prod.mk.injEq] at hc
      exact ⟨hdone g hg, hc.2.2⟩
  · intro hpc
    have hwg := h.wg_eq
    rw [hpc] at hwg
    simp only [MainPc.pending] at hwg
    simp only [step, hpc]
    constructor
    · intro hsome
      split_ifs at hsome with hz
      · exact all_done_of_unsignalled_zero s (by omega)
      · simp at hsome
    · intro hall
      have := unsignalled_zero_of_all_done s hall
      have hz : s.wg = 0 := by omega
      simp [hz]

/-- C2 on two items, the first of which cannot be opened: after the complete schedule
`main` is past `wg.Wait()`, both goroutines have called `wg.Done()`, and the failure was
reported. -/
theorem wait_returns_after_all_done_witness :
    run sampleConfig init sampleSchedule = some finalState
      ∧ finalState.pc = .returned
      ∧ Effect.stderr "Error opening file: open root/a.jpg: permission denied\n"
          ∈ finalState.log
      ∧ finalState.signals = sampleConfig.items.length
      ∧ finalState.signals = 2 := by
  have h := (wait_returns_after_all_done sampleConfig sampleSchedule finalState
    (by decide)).1 (by decide)
  exact ⟨by decide, by decide, by decide, h.1, by decide⟩

/-- C4: in every reachable state of the batch dispatch, every goroutine has made at most
one send on `sem`, no more receives than sends and no more `wg.Done()` calls than
receives, and a goroutine that has ended has made exactly one of each.  A move that
calls `wg.Done()` is made by a goroutine that has already received from `sem`.  From
inside `establishWebp` the goroutine goes on to its deferred receive for every result of
the four operations, and that receive is never blocked and frees exactly one slot.  And
when the number of `wg.Done()` calls is the number of items, `sem` is empty. -/
theorem slot_released_before_done (cfg : Config) (acts : List Action) (s : State)
    (hr : run cfg init acts = some s) :
    (∀ g ∈ s.tasks, g.sends ≤ 1 ∧ g.recvs ≤ g.sends ∧ g.dones ≤ g.recvs
        ∧ (g.phase = .done → g.sends = 1 ∧ g.recvs = 1 ∧ g.dones = 1))
      ∧ (∀ i r s', step cfg s (.task i r) = some s' → s'.signals = s.signals + 1 →
          ∃ g, s.tasks[i]? = some g ∧ g.phase = .released ∧ g.sends = 1 ∧ g.recvs = 1)
      ∧ (∀ i g r, s.tasks[i]? = some g → g.phase = .transforming →
          ∃ s', step cfg s (.task i r) = some s' ∧ s'.sem = s.sem
            ∧ s'.tasks[i]? = some { g with phase := .transformed })
      ∧ (∀ i g r, s.tasks[i]? = some g → g.phase = .transformed →
          ∃ s', step cfg s (.task i r) = some s' ∧ s'.sem + 1 = s.sem
            ∧ s'.tasks[i]? = some { g with phase := .released, recvs := g.recvs + 1 })
      ∧ (s.signals = cfg.items.length → s.sem = 0) := by
  have h := inv_reachable cfg acts s hr
  refine ⟨?_, ?_, ?_, ?_, ?_⟩
  · intro g hg
    have hc := h.ghost g hg
    cases hph : g.phase <;> rw [hph] at hc <;>
      simp only [Phase.counters, Prod.mk.injEq] at hc <;>
      simp [hc.1, hc.2.1, hc.2.2]
  · intro i r s' hs hsig
    unfold step at hs
    cases hg : s.tasks[i]? with
    | none => simp [hg] at hs
    | some g =>
      simp only [hg] at hs
      have hc := h.ghost g (List.getElem?_mem hg)
      cases hph : g.phase <;> simp only [hph] at hs hc
      · split_ifs at hs
        obtain rfl := Option.some.inj hs
        simp at hsig
      · obtain rfl := Option.some.inj hs
        simp at hsig
      · obtain rfl := Option.some.inj hs
        simp at hsig
      · split_ifs at hs
        obtain rfl := Option.some.inj hs
        simp at hsig
      · simp only [Phase.counters, Prod.mk.injEq] at hc
        exact ⟨g, rfl, hph, hc.1, hc.2.1⟩
      · simp at hs
  · intro i g r hg hph
    refine ⟨{ s with
      log := s.log ++ establishWebp r g.args.filePath g.args.output cfg.quality,
      tasks := s.tasks.set i { g with phase := .transformed } }, ?_, rfl, ?_⟩
    · simp only [step, hg, hph]
    · show (s.tasks.set i _)[i]? = _
      rw [List.getElem?_set_self', hg]; rfl
  · intro i g r hg hph
    have hpos : 0 < s.sem := by
      rw [h.sem_eq]
      simp only [holders, List.countP_pos_iff]
      exact ⟨g, List.getElem?_mem hg, by rw [hph]; rfl⟩
    refine ⟨{ s with
      sem := s.sem - 1,
      tasks := s.tasks.set i { g with phase := .released, recvs := g.recvs + 1 } }, ?_, ?_, ?_⟩
    · simp only [step, hg, hph, hpos, if_true]
    · show s.sem - 1 + 1 = s.sem
      omega
    · show (s.tasks.set i _)[i]? = _
      rw [List.getElem?_set_self', hg]; rfl
  · intro hsig
    have hlen := h.len
    have hbound := h.bound
    have hS : signalled s ≤ s.tasks.length := List.countP_le_length _
    have hall : signalled s = s.tasks.length := by
      have := h.sig_eq
      omega
    simp only [signalled, List.countP_eq_length] at hall
    rw [h.sem_eq]
    simp only [holders, List.countP_eq_zero]
    intro g hg
    have := (hasSignalled_iff _).mp (hall g hg)
    simp [this, Phase.holdsSlot]

/-- C4 on two items, the first of which cannot be opened: after the complete schedule
both goroutines have sent once and received once, and `sem` is empty. -/
theorem slot_released_before_done_witness :
    run sampleConfig init sampleSchedule = some finalState
      ∧ finalState.tasks.map (fun g => (g.sends, g.recvs, g.dones)) = [(1, 1, 1), (1, 1, 1)]
      ∧ finalState.sem = 0 := by
  have h := (slot_released_before_done sampleConfig sampleSchedule finalState
    (by decide)).2.2.2.2 (by decide)
  exact ⟨by decide, by decide, h⟩

end ImageW
